import Mathlib

/-!
Verification of the DroidGear profile/projection core (src/src-tauri/src/commands/)
against its natural-language specification.

The JSON data model mirrors serde_json::Value; objects are modelled as ordered
association lists of key/value pairs (serde maps have unique keys; the
well-formedness predicate `Json.wfB` captures that).
-/

namespace DroidGear

/-- Model of serde_json::Value. Numbers are modelled as integers: none of the
verified code inspects numeric values, it only moves them around. -/
inductive Json where
  | null : Json
  | bool : Bool → Json
  | num : Int → Json
  | str : String → Json
  | arr : List Json → Json
  | obj : List (String × Json) → Json

/-- serde map lookup (Map::get): first binding of the key. -/
def lookupField : List (String × Json) → String → Option Json
  | [], _ => none
  | (k0, v0) :: tl, k => if k0 = k then some v0 else lookupField tl k

/-- Key membership test (Map::contains_key). -/
def keyMem (k : String) : List (String × Json) → Bool
  | [] => false
  | (k0, _) :: tl => k0 = k || keyMem k tl

mutual
/-- deep_merge_json (openclaw.rs 190-204): if both sides are objects, merge the
overlay into the base per key; otherwise the overlay value replaces the base. -/
def deep_merge_json : Json → Json → Json
  | .obj b, .obj o => .obj (mergeFields b o)
  | _, o => o
termination_by _ y => (sizeOf y, 0, 0)

/-- The loop body of deep_merge_json: fold each overlay binding into the base. -/
def mergeFields : List (String × Json) → List (String × Json) → List (String × Json)
  | b, [] => b
  | b, (k, v) :: rest => mergeFields (setKey b k v) rest
termination_by _ o => (sizeOf o, 0, 0)

/-- One overlay binding merged into the base map: base_map.get_mut(key) hit
recurses into deep_merge_json, a miss inserts the binding. -/
def setKey : List (String × Json) → String → Json → List (String × Json)
  | [], k, v => [(k, v)]
  | (k0, v0) :: tl, k, v =>
      if k0 = k then (k0, deep_merge_json v0 v) :: tl
      else (k0, v0) :: setKey tl k v
termination_by l _ v => (sizeOf v, 1, sizeOf l)
end

/-- No key occurs twice in the binding list (serde maps cannot have duplicate
keys, so every object produced by serde_json satisfies this). -/
def nodupKeysB : List (String × Json) → Bool
  | [] => true
  | (k, _) :: tl => !keyMem k tl && nodupKeysB tl

mutual
/-- A Json value is well formed when every object node reachable through object
fields has duplicate-free keys. Array elements are never merged recursively
(deep_merge_json replaces arrays wholesale), so they are not constrained. -/
def wfB : Json → Bool
  | .obj fields => nodupKeysB fields && wfFields fields
  | _ => true

/-- Well-formedness of every value in a binding list. -/
def wfFields : List (String × Json) → Bool
  | [] => true
  | (_, v) :: tl => wfB v && wfFields tl
end

/-- How a merged object looks up, as a function of the two sides' lookups. -/
def mergeLook : Option Json → Option Json → Option Json
  | x, none => x
  | some bv, some ov => some (deep_merge_json bv ov)
  | none, some ov => some ov

/- ============================================================
   String helpers over the character list (kernel-computable
   models of str::trim, str::to_lowercase, str::ends_with and
   the lexicographic string order used by sort comparators).
   ============================================================ -/

/-- str::trim: leading and trailing whitespace removed. -/
def trimS (s : String) : String :=
  ⟨((s.data.dropWhile Char.isWhitespace).reverse.dropWhile Char.isWhitespace).reverse⟩

/-- str::to_lowercase (on the ASCII names used here). -/
def lowerS (s : String) : String :=
  ⟨s.data.map Char.toLower⟩

/-- str::ends_with. -/
def endsWithS (s suffix : String) : Bool :=
  suffix.data.isSuffixOf s.data

/-- Lexicographic order on characters, the order Ord::cmp uses on strings
(UTF-8 byte order equals code-point order). -/
def charListLe : List Char → List Char → Bool
  | [], _ => true
  | _ :: _, [] => false
  | a :: as, b :: bs =>
      if a.toNat < b.toNat then true
      else if b.toNat < a.toNat then false
      else charListLe as bs

/-- String order: a.cmp(b) is not Greater. -/
def strLeB (a b : String) : Bool :=
  charListLe a.data b.data

/- ============================================================
   Generic string-keyed stores (profile directories modelled as
   filename-to-parsed-record maps; each file is one binding).
   ============================================================ -/

/-- Lookup in a string-keyed store. -/
def storeLookup {α : Type} : List (String × α) → String → Option α
  | [], _ => none
  | (k0, v) :: tl, k => if k0 = k then some v else storeLookup tl k

/-- Overwrite-or-create a file in a store (atomic_write to a path). -/
def storeInsert {α : Type} : List (String × α) → String → α → List (String × α)
  | [], k, v => [(k, v)]
  | (k0, v0) :: tl, k, v =>
      if k0 = k then (k0, v) :: tl else (k0, v0) :: storeInsert tl k v

/-- Remove a file from a store (fs::remove_file; no error when absent). -/
def storeRemove {α : Type} : List (String × α) → String → List (String × α)
  | [], _ => []
  | (k0, v0) :: tl, k =>
      if k0 = k then storeRemove tl k else (k0, v0) :: storeRemove tl k

/- ============================================================
   Shared helpers of codex.rs / opencode.rs / openclaw.rs
   ============================================================ -/

/-- validate_profile_id (codex.rs 103-112, identical in openclaw.rs 127-136):
every char ASCII alphanumeric, hyphen or underscore, and the id nonempty. -/
def validate_profile_id (id : String) : Bool :=
  id.data.all (fun c => c.isAlphanum || c = '-' || c = '_') && !id.data.isEmpty

/-- get_active_profile_id_internal (codex.rs 365-378, openclaw.rs 536-549):
the pointer file content, trimmed; absent or blank means no active profile.
The argument is the raw content of active-profile.txt (none = file absent). -/
def activeIdOf : Option String → Option String
  | none => none
  | some s => if trimS s = "" then none else some (trimS s)

/-- On-disk state of a single file, as the read path of an adapter sees it. -/
inductive FileState where
  | absent : FileState
  | unreadable : FileState
  | content : String → FileState

/- ============================================================
   Codex (codex.rs): profile store, live files, apply
   ============================================================ -/

/-- CodexProfile (codex.rs 18-31). -/
structure CodexProfileR where
  id : String
  name : String
  description : Option String
  created_at : String
  updated_at : String
  auth : List (String × Json)
  config_toml : String

/-- load_profile_by_id (codex.rs 251-254): get_profile_path validates the id,
then the profile file is read and parsed. The store maps ids to parsed
records; a missing binding is the read failure of a missing file. -/
def load_profile_by_id (store : List (String × CodexProfileR)) (id : String) :
    Except String CodexProfileR :=
  if validate_profile_id id then
    match storeLookup store id with
    | some p => Except.ok p
    | none => Except.error "Failed to read profile"
  else Except.error "Invalid profile id"

/-- get_codex_profile (codex.rs 285-287). -/
def get_codex_profile (store : List (String × CodexProfileR)) (id : String) :
    Except String CodexProfileR :=
  load_profile_by_id store id

/-- write_profile_file (codex.rs 244-249): get_profile_path validates the id,
then the serialized profile atomically replaces the file named by the id. -/
def write_profile_file (store : List (String × CodexProfileR)) (p : CodexProfileR) :
    Except String (List (String × CodexProfileR)) :=
  if validate_profile_id p.id then Except.ok (storeInsert store p.id p)
  else Except.error "Invalid profile id"

/-- save_codex_profile (codex.rs 292-307): blank id gets a fresh uuid and
created_at := now; an id whose file exists keeps the stored created_at;
otherwise a blank created_at is set to now; updated_at is always refreshed.
`now` models Utc::now, `freshId` models Uuid::new_v4. -/
def save_codex_profile (store : List (String × CodexProfileR)) (p : CodexProfileR)
    (now freshId : String) : Except String (List (String × CodexProfileR)) :=
  if trimS p.id = "" then
    write_profile_file store { p with id := freshId, created_at := now, updated_at := now }
  else if validate_profile_id p.id = false then
    Except.error "Invalid profile id"
  else
    match storeLookup store p.id with
    | some old => write_profile_file store { p with created_at := old.created_at, updated_at := now }
    | none =>
        if trimS p.created_at = "" then
          write_profile_file store { p with created_at := now, updated_at := now }
        else
          write_profile_file store { p with updated_at := now }

/-- delete_codex_profile (codex.rs 312-327): validate, remove the file if
present, and clear the pointer file when it names the deleted id. Takes and
returns the pointer file content alongside the store. -/
def delete_codex_profile (store : List (String × CodexProfileR))
    (active : Option String) (id : String) :
    Except String (List (String × CodexProfileR) × Option String) :=
  if validate_profile_id id = false then Except.error "Invalid profile id"
  else
    Except.ok (storeRemove store id,
      match activeIdOf active with
      | some a => if a = id then none else active
      | none => active)

/-- duplicate_codex_profile (codex.rs 332-340): load, reassign id and both
timestamps, set the new name, persist as a new document. -/
def duplicate_codex_profile (store : List (String × CodexProfileR))
    (id newName now freshId : String) :
    Except String (List (String × CodexProfileR) × CodexProfileR) :=
  match load_profile_by_id store id with
  | Except.error e => Except.error e
  | Except.ok p =>
      let p2 := { p with id := freshId, name := newName, created_at := now, updated_at := now }
      match write_profile_file store p2 with
      | Except.error e => Except.error e
      | Except.ok store2 => Except.ok (store2, p2)

/-- The live-file side of the codex tool family: raw byte contents of
auth.json, config.toml and active-profile.txt (none = file absent). -/
structure CodexFs where
  auth : Option String
  config : Option String
  active : Option String

/-- write_codex_live_atomic (codex.rs 178-214) over the abstract filesystem:
validate the TOML, pre-read both originals, write auth.json then config.toml;
if the config write fails, both files are rewritten to their pre-read bytes
(or removed when they did not exist) and the error is returned.
wAuthOk / wConfigOk model the outcomes of the two primary atomic_write calls;
a failed atomic_write leaves its target untouched (sibling temp file plus
rename). The rollback writes have their results ignored in the source
(let _ = ...) and are modelled as succeeding; tomlValid models the result of
validate_toml on the given config text. -/
def write_codex_live_atomic (fs : CodexFs) (authBytes configBytes : String)
    (tomlValid wAuthOk wConfigOk : Bool) : Option String × CodexFs :=
  if tomlValid = false then (some "Invalid TOML", fs)
  else
    let oldAuth := fs.auth
    let oldConfig := fs.config
    if wAuthOk = false then (some "Failed to write file", fs)
    else
      let fs1 := { fs with auth := some authBytes }
      if wConfigOk then (none, { fs1 with config := some configBytes })
      else
        let fs2 :=
          match oldAuth with
          | some bytes => { fs1 with auth := some bytes }
          | none => { fs1 with auth := none }
        let fs3 :=
          match oldConfig with
          | some bytes => { fs2 with config := some bytes }
          | none => { fs2 with config := none }
        (some "Failed to finalize file", fs3)

/-- apply_codex_profile (codex.rs 395-400): load the profile, write the live
files atomically, then write the pointer file last. serializeAuth models
serde_json::to_string_pretty of the auth object; tomlOk models validate_toml. -/
def apply_codex_profile (store : List (String × CodexProfileR)) (fs : CodexFs)
    (id : String) (serializeAuth : List (String × Json) → String)
    (tomlOk : String → Bool) (wAuthOk wConfigOk wActiveOk : Bool) :
    Option String × CodexFs :=
  match load_profile_by_id store id with
  | Except.error e => (some e, fs)
  | Except.ok p =>
      let r := write_codex_live_atomic fs (serializeAuth p.auth) p.config_toml
        (tomlOk p.config_toml) wAuthOk wConfigOk
      match r.1 with
      | some e => (some e, r.2)
      | none =>
          if wActiveOk then (none, { r.2 with active := some id })
          else (some "Failed to finalize file", r.2)

/-- write_json_object_file (codex.rs 155-160) at the document level: the
object is serialized and atomically replaces the file, so the stored document
becomes exactly the given object; the previous file content (first argument)
has no influence on the result. -/
def write_json_object_file (_previous : Option Json) (obj : List (String × Json)) :
    Option Json :=
  some (Json.obj obj)

/-- read_json_object_file (codex.rs 140-153): an absent file and a blank file
yield the empty object, a read failure and unparsable or non-object content
are errors. parse models serde_json::from_str. -/
def read_json_object_file (file : FileState) (parse : String → Except String Json) :
    Except String (List (String × Json)) :=
  match file with
  | FileState.absent => Except.ok []
  | FileState.unreadable => Except.error "Failed to read file"
  | FileState.content s =>
      if trimS s = "" then Except.ok []
      else
        match parse s with
        | Except.error e => Except.error ("Invalid JSON: " ++ e)
        | Except.ok (Json.obj m) => Except.ok m
        | Except.ok _ => Except.error "Invalid JSON: expected object"

/-- Models serde_json::from_str on input that is not JSON (for example the
content "x"): the parser reports an error. -/
def parseAlwaysFails : String → Except String Json :=
  fun _ => Except.error "expected value"

/- ============================================================
   OpenCode (opencode.rs): profile store, live files, apply
   ============================================================ -/

/-- OpenCodeProfile (opencode.rs 45-56). The providers payload is kept as the
JSON object it serializes to; its internal shape is not inspected here. -/
structure OcProfileR where
  id : String
  name : String
  description : Option String
  created_at : String
  updated_at : String
  providers : List (String × Json)
  auth : List (String × Json)

/-- The path derived for a profile id by opencode.rs (229-231, 245-247,
259-261): dir.join of the formatted file name, with no validation of the id. -/
def ocProfilePath (id : String) : String :=
  "profiles/" ++ id ++ ".json"

/-- get_opencode_profile (opencode.rs 229-240): derive the path from the id,
NotFound when absent, else read and parse. The store maps paths to parsed
records. -/
def get_opencode_profile (store : List (String × OcProfileR)) (id : String) :
    Except String OcProfileR :=
  match storeLookup store (ocProfilePath id) with
  | some p => Except.ok p
  | none => Except.error ("Profile not found: " ++ id)

/-- save_opencode_profile (opencode.rs 245-254): refresh updated_at and write
the caller-supplied record to the id-derived path; no id validation, no id
generation, no created_at preservation. -/
def save_opencode_profile (store : List (String × OcProfileR)) (p : OcProfileR)
    (now : String) : List (String × OcProfileR) :=
  storeInsert store (ocProfilePath p.id) { p with updated_at := now }

/-- delete_opencode_profile (opencode.rs 259-276): remove the file if present,
then clear the pointer file when its trimmed content equals the id. -/
def delete_opencode_profile (store : List (String × OcProfileR))
    (active : Option String) (id : String) :
    List (String × OcProfileR) × Option String :=
  (storeRemove store (ocProfilePath id),
    match active with
    | some content => if trimS content = id then none else active
    | none => active)

/-- get_active_opencode_profile_id (opencode.rs 333-346): same trimming logic
as the codex pointer reader. -/
def get_active_opencode_profile_id (active : Option String) : Option String :=
  activeIdOf active

/-- The live-file side of the opencode tool family: raw contents of the
resolved config file, the resolved auth file, and active-profile.txt. -/
structure OcFs where
  config : Option String
  auth : Option String
  active : Option String

/-- apply_opencode_profile (opencode.rs 352-404) over the abstract filesystem:
write the merged config, then the merged auth, then the pointer file; every
failing write returns early and nothing written before it is rolled back.
newConfig / newAuth are the serialized merged documents; wConfigOk / wAuthOk /
wActiveOk model the outcomes of the three atomic_write calls (a failed
atomic_write leaves its target untouched). -/
def apply_opencode_profile_fs (fs : OcFs) (profileLoaded : Bool)
    (newConfig newAuth id : String) (wConfigOk wAuthOk wActiveOk : Bool) :
    Option String × OcFs :=
  if profileLoaded = false then (some "Profile not found", fs)
  else if wConfigOk = false then (some "Failed to write file", fs)
  else
    let fs1 := { fs with config := some newConfig }
    if wAuthOk = false then (some "Failed to write file", fs1)
    else
      let fs2 := { fs1 with auth := some newAuth }
      if wActiveOk then (none, { fs2 with active := some id })
      else (some "Failed to write file", fs2)

/-- serde Map::insert: replace the value at the key, or append the binding. -/
def insertField : List (String × Json) → String → Json → List (String × Json)
  | [], k, v => [(k, v)]
  | (k0, v0) :: tl, k, v =>
      if k0 = k then (k0, v) :: tl else (k0, v0) :: insertField tl k v

/-- Insert every binding of the second list into the first, in order
(the for-loop over new_obj in opencode.rs 371-373 and over profile.auth in
opencode.rs 388-390). -/
def insertAllFields : List (String × Json) → List (String × Json) → List (String × Json)
  | pf, [] => pf
  | pf, (k, v) :: rest => insertAllFields (insertField pf k v) rest

/-- Apply a function to the value stored at a key (the in-place mutation of
the entry returned by Map::entry). -/
def mapValueAt : List (String × Json) → String → (Json → Json) → List (String × Json)
  | [], _, _ => []
  | (k0, v0) :: tl, k, f =>
      if k0 = k then (k0, f v0) :: tl else (k0, v0) :: mapValueAt tl k f

/-- The config-file merge step of apply_opencode_profile (opencode.rs 359-376)
at the document level: when the profile has providers and the config document
is an object, obj.entry("provider").or_insert({}) materializes the provider
entry and each profile provider is inserted into it when that entry is an
object; every other top-level key is untouched. A non-object document passes
through unchanged (as_object_mut yields None). -/
def apply_providers_to_config (cfg : Json) (provs : List (String × Json)) : Json :=
  if provs.isEmpty then cfg
  else
    match cfg with
    | Json.obj fields =>
        let fields1 :=
          if keyMem "provider" fields then fields
          else fields ++ [("provider", Json.obj [])]
        Json.obj (mapValueAt fields1 "provider" (fun pv =>
          match pv with
          | Json.obj pf => Json.obj (insertAllFields pf provs)
          | other => other))
    | other => other

/-- The auth-file merge step of apply_opencode_profile (opencode.rs 384-392)
at the document level: each profile auth binding is inserted into the existing
auth object; foreign bindings survive. -/
def apply_auth_to_auth (auth : Json) (pauth : List (String × Json)) : Json :=
  if pauth.isEmpty then auth
  else
    match auth with
    | Json.obj fields => Json.obj (insertAllFields fields pauth)
    | other => other

/-- read_json_file (opencode.rs 175-196): absent file, unreadable file, a
comment-stripping failure and unparsable content all yield the empty object;
parsed content is returned as is. strip models json_comments::StripComments
(none = the strip read failed), parse models serde_json::from_str. -/
def read_json_file (file : FileState) (strip : String → Option String)
    (parse : String → Except String Json) : Json :=
  match file with
  | FileState.absent => Json.obj []
  | FileState.unreadable => Json.obj []
  | FileState.content s =>
      match strip s with
      | none => Json.obj []
      | some buf =>
          match parse buf with
          | Except.ok v => v
          | Except.error _ => Json.obj []

/- ============================================================
   Factory settings reader (config.rs)
   ============================================================ -/

/-- ConfigReadResult (config.rs). -/
inductive ConfigReadResult where
  | notFound : ConfigReadResult
  | parseError : String → ConfigReadResult
  | okValue : Json → ConfigReadResult

/-- read_config_file (config.rs 103-126): absent and blank files are NotFound,
an unreadable file and unparsable content are ParseError. -/
def read_config_file (file : FileState) (parse : String → Except String Json) :
    ConfigReadResult :=
  match file with
  | FileState.absent => ConfigReadResult.notFound
  | FileState.unreadable => ConfigReadResult.parseError "Failed to read config file"
  | FileState.content s =>
      if trimS s = "" then ConfigReadResult.notFound
      else
        match parse s with
        | Except.ok v => ConfigReadResult.okValue v
        | Except.error e => ConfigReadResult.parseError ("Failed to parse config JSON: " ++ e)

/- ============================================================
   OpenClaw (openclaw.rs): profile projection and config write
   ============================================================ -/

/-- OpenClawModel (openclaw.rs 20-34). -/
structure OpenClawModelR where
  id : String
  name : Option String
  reasoning : Bool
  input : List String
  context_window : Option Nat
  max_tokens : Option Nat

/-- OpenClawProviderConfig (openclaw.rs 37-48). -/
structure OpenClawProviderR where
  base_url : Option String
  api_key : Option String
  api : Option String
  models : List OpenClawModelR

/-- OpenClawProfile (openclaw.rs 51-64). providers is a keyed collection;
this model fixes an iteration order (the claims proved here do not depend
on it). -/
structure OpenClawProfileR where
  id : String
  name : String
  description : Option String
  created_at : String
  updated_at : String
  default_model : Option String
  providers : List (String × OpenClawProviderR)

/-- The model object serialized by build_openclaw_config (openclaw.rs 262-287). -/
def build_model_json (m : OpenClawModelR) : Json :=
  Json.obj
    ([("id", Json.str m.id)]
      ++ (match m.name with
          | some n => [("name", Json.str n)]
          | none => [])
      ++ [("reasoning", Json.bool m.reasoning)]
      ++ (if m.input.isEmpty then []
          else [("input", Json.arr (m.input.map Json.str))])
      ++ (match m.context_window with
          | some cw => [("contextWindow", Json.num (Int.ofNat cw))]
          | none => [])
      ++ (match m.max_tokens with
          | some mt => [("maxTokens", Json.num (Int.ofNat mt))]
          | none => []))

/-- The provider object serialized by build_openclaw_config (openclaw.rs
247-291). -/
def build_provider_json (p : OpenClawProviderR) : Json :=
  Json.obj
    ((match p.base_url with
      | some u => [("baseUrl", Json.str u)]
      | none => [])
      ++ (match p.api_key with
          | some k2 => [("apiKey", Json.str k2)]
          | none => [])
      ++ (match p.api with
          | some a => [("api", Json.str a)]
          | none => [])
      ++ (if p.models.isEmpty then []
          else [("models", Json.arr (p.models.map build_model_json))]))

/-- The top-level bindings built by build_openclaw_config (openclaw.rs
207-299): an "agents" entry when there is a default model or any model ref,
and a "models" entry when there are providers. -/
def build_openclaw_config_fields (profile : OpenClawProfileR) :
    List (String × Json) :=
  let allModelRefs :=
    (profile.providers.map (fun kv =>
      kv.2.models.map (fun m => kv.1 ++ "/" ++ m.id))).flatten
  (if profile.default_model.isSome || !allModelRefs.isEmpty then
    [("agents", Json.obj [("defaults", Json.obj
      ((match profile.default_model with
        | some m => [("model", Json.obj [("primary", Json.str m)])]
        | none => [])
        ++ (if allModelRefs.isEmpty then []
            else [("models", Json.obj (allModelRefs.map (fun r => (r, Json.obj []))))])))])]
  else [])
    ++ (if profile.providers.isEmpty then []
        else
          [("models", Json.obj
            [("mode", Json.str "merge"),
             ("providers", Json.obj (profile.providers.map (fun kv =>
               (kv.1, build_provider_json kv.2))))])])

/-- build_openclaw_config (openclaw.rs 207-299). -/
def build_openclaw_config (profile : OpenClawProfileR) : Json :=
  Json.obj (build_openclaw_config_fields profile)

/-- write_openclaw_config (openclaw.rs 399-410) at the document level: deep
merge the profile projection into the existing document (read_openclaw_config_raw
yields the empty object when the file is absent). -/
def write_openclaw_config_doc (existing : Json) (profile : OpenClawProfileR) : Json :=
  deep_merge_json existing (build_openclaw_config profile)

/-- A JSON document viewed as an object: its binding at a key. -/
def lookupJson : Json → String → Option Json
  | Json.obj fields, k => lookupField fields k
  | _, _ => none

/- ============================================================
   Profile listing (codex.rs 263-280, opencode.rs 205-224)
   ============================================================ -/

/-- Path::extension() == Some("json"): the name ends in ".json" and is not
the bare dotfile ".json" (whose extension is None). -/
def hasJsonExt (name : String) : Bool :=
  endsWithS name ".json" && !(name == ".json")

/-- The collection loop shared by both list functions: parse every directory
entry with the json extension, silently skipping entries that fail to parse.
Entries are (file name, raw content) pairs; parse models serde_json::from_str
of the respective profile type. -/
def parsedEntries {α : Type} (parse : String → Option α)
    (entries : List (String × String)) : List α :=
  entries.foldl
    (fun acc e =>
      if hasJsonExt e.1 then
        match parse e.2 with
        | some p => acc ++ [p]
        | none => acc
      else acc)
    []

/-- Stable insertion into a sorted list: the new element goes before the
first element that is not strictly below it. -/
def insertSorted {α : Type} (le : α → α → Bool) (x : α) : List α → List α
  | [] => [x]
  | y :: tl =>
      if le y x && !le x y then y :: insertSorted le x tl
      else x :: y :: tl

/-- Stable sort by a boolean comparison (Vec::sort_by is a stable sort, and a
stable sort is determined by its comparator). -/
def sortBy {α : Type} (le : α → α → Bool) : List α → List α
  | [] => []
  | x :: tl => insertSorted le x (sortBy le tl)

/-- The codex list comparator (codex.rs 278): case-insensitive name order. -/
def codexNameLe (a b : CodexProfileR) : Bool :=
  strLeB (lowerS a.name) (lowerS b.name)

/-- The opencode list comparator (opencode.rs 222): plain name order. -/
def opencodeNameLe (a b : OcProfileR) : Bool :=
  strLeB a.name b.name

/-- list_codex_profiles (codex.rs 263-280). -/
def list_codex_profiles (parse : String → Option CodexProfileR)
    (entries : List (String × String)) : List CodexProfileR :=
  sortBy codexNameLe (parsedEntries parse entries)

/-- list_opencode_profiles (opencode.rs 205-224). -/
def list_opencode_profiles (parse : String → Option OcProfileR)
    (entries : List (String × String)) : List OcProfileR :=
  sortBy opencodeNameLe (parsedEntries parse entries)

/- ============================================================
   Concrete example records used by witnesses and counterexamples
   ============================================================ -/

/-- A stored codex profile. -/
def exCodexProfile : CodexProfileR :=
  ⟨"p1", "Prof", none, "t0", "t0", [("OPENAI_API_KEY", Json.str "k")], "model = 1"⟩

/-- A stored openclaw profile with one provider. -/
def exOpenClawProfile : OpenClawProfileR :=
  ⟨"p", "P", none, "t0", "t0", some "anthropic/claude",
    [("acme", ⟨some "https://x", some "k1", none, []⟩)]⟩

/-- An opencode profile whose id is a path-traversal string. -/
def exOcTraversal : OcProfileR :=
  ⟨"../evil", "X", none, "t0", "t0", [], []⟩

/-- A stored opencode profile created in 2020. -/
def exOcStored : OcProfileR :=
  ⟨"p", "Old", none, "2020-01-01T00:00:00Z", "2020-01-01T00:00:00Z", [], []⟩

/-- A caller-side update of the same opencode profile carrying its own
created_at. -/
def exOcCaller : OcProfileR :=
  ⟨"p", "New", none, "2099-01-01T00:00:00Z", "x", [], []⟩

/-- An opencode profile displayed as "a". -/
def exOcProfA : OcProfileR :=
  ⟨"a1", "a", none, "t0", "t0", [], []⟩

/-- An opencode profile displayed as "B". -/
def exOcProfB : OcProfileR :=
  ⟨"b1", "B", none, "t0", "t0", [], []⟩

/-- A parser recognizing exactly the two example profile documents. -/
def exParseOc : String → Option OcProfileR :=
  fun s =>
    if s = "CONTENT-A" then some exOcProfA
    else if s = "CONTENT-B" then some exOcProfB
    else none

theorem keyMem_iff {k : String} {l : List (String × Json)} :
    keyMem k l = true ↔ k ∈ l.map Prod.fst := by
  induction l with
  | nil => simp [keyMem]
  | cons hd tl ih =>
      obtain ⟨k0, v0⟩ := hd
      simp only [keyMem, Bool.or_eq_true, decide_eq_true_eq, List.map_cons, List.mem_cons, ih]
      constructor
      · rintro (h | h)
        · exact Or.inl h.symm
        · exact Or.inr h
      · rintro (h | h)
        · exact Or.inl h.symm
        · exact Or.inr h

theorem lookupField_eq_none {k : String} {l : List (String × Json)}
    (h : keyMem k l = false) : lookupField l k = none := by
  induction l with
  | nil => simp [lookupField]
  | cons hd tl ih =>
      obtain ⟨k0, v0⟩ := hd
      simp only [keyMem, Bool.or_eq_false_iff] at h
      have hk : k0 ≠ k := by
        intro he
        rw [he] at h
        simp at h
      simp [lookupField, hk, ih h.2]

theorem lookup_setKey_self (b : List (String × Json)) (k : String) (v : Json) :
    lookupField (setKey b k v) k
      = some (match lookupField b k with
              | some bv => deep_merge_json bv v
              | none => v) := by
  induction b with
  | nil => simp [setKey, lookupField]
  | cons hd tl ih =>
      obtain ⟨k0, v0⟩ := hd
      by_cases h : k0 = k <;> simp [setKey, lookupField, h, ih]

theorem lookup_setKey_ne {k k' : String} (hne : k' ≠ k)
    (b : List (String × Json)) (v : Json) :
    lookupField (setKey b k v) k' = lookupField b k' := by
  have hne' : k ≠ k' := fun h => hne h.symm
  induction b with
  | nil => simp [setKey, lookupField, hne']
  | cons hd tl ih =>
      obtain ⟨k0, v0⟩ := hd
      by_cases h : k0 = k
      · subst h
        simp [setKey, lookupField, hne']
      · simp [setKey, lookupField, h, ih]

theorem keys_setKey_mem {k : String} {b : List (String × Json)}
    (h : keyMem k b = true) (v : Json) :
    (setKey b k v).map Prod.fst = b.map Prod.fst := by
  induction b with
  | nil => simp [keyMem] at h
  | cons hd tl ih =>
      obtain ⟨k0, v0⟩ := hd
      by_cases hk : k0 = k
      · simp [setKey, hk]
      · simp only [keyMem, Bool.or_eq_true, decide_eq_true_eq] at h
        rcases h with h | h
        · exact absurd h hk
        · simp [setKey, hk, ih h]

theorem keys_setKey_not_mem {k : String} {b : List (String × Json)}
    (h : keyMem k b = false) (v : Json) :
    (setKey b k v).map Prod.fst = b.map Prod.fst ++ [k] := by
  induction b with
  | nil => simp [setKey]
  | cons hd tl ih =>
      obtain ⟨k0, v0⟩ := hd
      simp only [keyMem, Bool.or_eq_false_iff] at h
      have hk : k0 ≠ k := by
        intro he; simp [he] at h
      simp [setKey, hk, ih h.2]

theorem lookup_mergeFields {o : List (String × Json)} (ho : nodupKeysB o = true)
    (b : List (String × Json)) (k : String) :
    lookupField (mergeFields b o) k = mergeLook (lookupField b k) (lookupField o k) := by
  induction o generalizing b with
  | nil => simp [mergeFields, lookupField, mergeLook]
  | cons hd rest ih =>
      obtain ⟨k0, v0⟩ := hd
      simp only [nodupKeysB, Bool.and_eq_true, Bool.not_eq_true'] at ho
      by_cases hk : k0 = k
      · subst hk
        rw [mergeFields, ih ho.2, lookupField_eq_none ho.1, lookup_setKey_self]
        simp only [lookupField, if_pos rfl]
        cases h : lookupField b k0 <;> simp [mergeLook]
      · rw [mergeFields, ih ho.2, lookup_setKey_ne (fun h => hk h.symm)]
        simp [lookupField, hk]



theorem keyMem_eq_of_keys_eq {l1 l2 : List (String × Json)} (k : String)
    (h : l1.map Prod.fst = l2.map Prod.fst) : keyMem k l1 = keyMem k l2 := by
  cases h1 : keyMem k l1 <;> cases h2 : keyMem k l2 <;> try rfl
  · exfalso
    have hm : k ∈ l2.map Prod.fst := keyMem_iff.mp h2
    rw [← h] at hm
    have := keyMem_iff.mpr hm
    rw [h1] at this
    exact Bool.false_ne_true this
  · exfalso
    have hm : k ∈ l1.map Prod.fst := keyMem_iff.mp h1
    rw [h] at hm
    have := keyMem_iff.mpr hm
    rw [h2] at this
    exact Bool.false_ne_true this

theorem nodupKeysB_eq_of_keys_eq {l1 l2 : List (String × Json)}
    (h : l1.map Prod.fst = l2.map Prod.fst) (hn : nodupKeysB l1 = true) :
    nodupKeysB l2 = true := by
  induction l1 generalizing l2 with
  | nil =>
      cases l2 with
      | nil => simp [nodupKeysB]
      | cons hd tl => simp at h
  | cons hd t1 ih =>
      obtain ⟨k0, v0⟩ := hd
      cases l2 with
      | nil => simp at h
      | cons hd2 t2 =>
          obtain ⟨k2, v2⟩ := hd2
          simp only [List.map_cons, List.cons.injEq] at h
          simp only [nodupKeysB, Bool.and_eq_true, Bool.not_eq_true'] at hn ⊢
          refine ⟨?_, ih h.2 hn.2⟩
          rw [← h.1, ← keyMem_eq_of_keys_eq k0 h.2]
          exact hn.1

theorem keyMem_setKey (k k0 : String) (v0 : Json) (b : List (String × Json))
    (h : keyMem k b = true) : keyMem k (setKey b k0 v0) = true := by
  cases hm : keyMem k0 b
  · rw [keyMem_iff, keys_setKey_not_mem hm, List.mem_append]
    exact Or.inl (keyMem_iff.mp h)
  · rw [keyMem_eq_of_keys_eq k (keys_setKey_mem hm v0)]
    exact h

theorem keyMem_setKey_self (k0 : String) (v0 : Json) (b : List (String × Json)) :
    keyMem k0 (setKey b k0 v0) = true := by
  cases hm : keyMem k0 b
  · rw [keyMem_iff, keys_setKey_not_mem hm, List.mem_append]
    exact Or.inr (by simp)
  · rw [keyMem_eq_of_keys_eq k0 (keys_setKey_mem hm v0)]
    exact hm

theorem keyMem_setKey_false {k k0 : String} {b : List (String × Json)}
    (hne : k ≠ k0) (h : keyMem k b = false) (v0 : Json) :
    keyMem k (setKey b k0 v0) = false := by
  cases h2 : keyMem k (setKey b k0 v0)
  · rfl
  · exfalso
    cases hm : keyMem k0 b
    · have hmem := keyMem_iff.mp h2
      rw [keys_setKey_not_mem hm, List.mem_append] at hmem
      rcases hmem with hmem | hmem
      · have := keyMem_iff.mpr hmem
        rw [h] at this
        exact Bool.false_ne_true this
      · simp only [List.mem_singleton] at hmem
        exact hne hmem
    · rw [keyMem_eq_of_keys_eq k (keys_setKey_mem hm v0), h] at h2
      exact Bool.false_ne_true h2

theorem nodup_setKey {b : List (String × Json)} (hn : nodupKeysB b = true)
    (k0 : String) (v0 : Json) : nodupKeysB (setKey b k0 v0) = true := by
  induction b with
  | nil => simp [setKey, nodupKeysB, keyMem]
  | cons hd tl ih =>
      obtain ⟨k1, v1⟩ := hd
      simp only [nodupKeysB, Bool.and_eq_true, Bool.not_eq_true'] at hn
      by_cases hk : k1 = k0
      · subst hk
        simp only [setKey, if_pos rfl, nodupKeysB, Bool.and_eq_true, Bool.not_eq_true']
        exact hn
      · simp only [setKey, if_neg hk, nodupKeysB, Bool.and_eq_true, Bool.not_eq_true']
        exact ⟨keyMem_setKey_false hk hn.1 v0, ih hn.2⟩

theorem keyMem_mergeFields_left {k : String} {b o : List (String × Json)}
    (h : keyMem k b = true) : keyMem k (mergeFields b o) = true := by
  induction o generalizing b with
  | nil => simpa [mergeFields] using h
  | cons hd rest ih =>
      obtain ⟨k0, v0⟩ := hd
      rw [mergeFields]
      exact ih (keyMem_setKey k k0 v0 b h)

theorem keyMem_mergeFields_right {k : String} {b o : List (String × Json)}
    (h : keyMem k o = true) : keyMem k (mergeFields b o) = true := by
  induction o generalizing b with
  | nil => simp [keyMem] at h
  | cons hd rest ih =>
      obtain ⟨k0, v0⟩ := hd
      rw [mergeFields]
      simp only [keyMem, Bool.or_eq_true, decide_eq_true_eq] at h
      rcases h with h | h
      · subst h
        exact keyMem_mergeFields_left (keyMem_setKey_self k0 v0 b)
      · exact ih h

theorem keys_mergeFields_of_sub {b o : List (String × Json)}
    (h : ∀ k, keyMem k o = true → keyMem k b = true) :
    (mergeFields b o).map Prod.fst = b.map Prod.fst := by
  induction o generalizing b with
  | nil => simp [mergeFields]
  | cons hd rest ih =>
      obtain ⟨k0, v0⟩ := hd
      have hb : keyMem k0 b = true := h k0 (by simp [keyMem])
      rw [mergeFields, ih, keys_setKey_mem hb]
      intro k hk
      rw [keyMem_eq_of_keys_eq k (keys_setKey_mem hb v0)]
      exact h k (by simp [keyMem, hk])

theorem nodup_mergeFields {b o : List (String × Json)} (hn : nodupKeysB b = true) :
    nodupKeysB (mergeFields b o) = true := by
  induction o generalizing b with
  | nil => simpa [mergeFields] using hn
  | cons hd rest ih =>
      obtain ⟨k0, v0⟩ := hd
      rw [mergeFields]
      exact ih (nodup_setKey hn k0 v0)

theorem fields_ext {l1 l2 : List (String × Json)}
    (hk : l1.map Prod.fst = l2.map Prod.fst) (hn : nodupKeysB l1 = true)
    (hl : ∀ k, lookupField l1 k = lookupField l2 k) : l1 = l2 := by
  induction l1 generalizing l2 with
  | nil =>
      cases l2 with
      | nil => rfl
      | cons hd tl => simp at hk
  | cons hd t1 ih =>
      obtain ⟨k0, v0⟩ := hd
      cases l2 with
      | nil => simp at hk
      | cons hd2 t2 =>
          obtain ⟨k2, v2⟩ := hd2
          simp only [List.map_cons, List.cons.injEq] at hk
          obtain ⟨hkey, htl⟩ := hk
          subst hkey
          simp only [nodupKeysB, Bool.and_eq_true, Bool.not_eq_true'] at hn
          have hv : v0 = v2 := by
            have := hl k0
            simp [lookupField] at this
            exact this
          subst hv
          have htails : ∀ k, lookupField t1 k = lookupField t2 k := by
            intro k
            by_cases hke : k0 = k
            · subst hke
              rw [lookupField_eq_none hn.1]
              have h2 : keyMem k0 t2 = false := by
                rw [← keyMem_eq_of_keys_eq k0 htl]
                exact hn.1
              rw [lookupField_eq_none h2]
            · have := hl k
              simpa [lookupField, hke] using this
          rw [ih htl hn.2 htails]

theorem lookup_mem {l : List (String × Json)} {k : String} {v : Json}
    (h : lookupField l k = some v) : (k, v) ∈ l := by
  induction l with
  | nil => simp [lookupField] at h
  | cons hd tl ih =>
      obtain ⟨k0, v0⟩ := hd
      by_cases hk : k0 = k
      · subst hk
        simp only [lookupField, if_true, eq_self_iff_true, ite_true, Option.some.injEq] at h
        subst h
        exact List.mem_cons_self _ _
      · simp only [lookupField, if_neg hk] at h
        exact List.mem_cons_of_mem _ (ih h)

theorem sizeOf_lookup_lt {l : List (String × Json)} {k : String} {v : Json}
    (h : (k, v) ∈ l) : sizeOf v < sizeOf l := by
  have h1 := List.sizeOf_lt_of_mem h
  have h2 : sizeOf (k, v) = 1 + sizeOf k + sizeOf v := rfl
  omega

theorem wfFields_lookup {f : List (String × Json)} {k : String} {v : Json}
    (hw : wfFields f = true) (h : lookupField f k = some v) : wfB v = true := by
  induction f with
  | nil => simp [lookupField] at h
  | cons hd tl ih =>
      obtain ⟨k0, v0⟩ := hd
      rw [wfFields] at hw
      simp only [Bool.and_eq_true] at hw
      by_cases hk : k0 = k
      · subst hk
        simp only [lookupField, if_true, eq_self_iff_true, ite_true, Option.some.injEq] at h
        subst h
        exact hw.1
      · simp only [lookupField, if_neg hk] at h
        exact ih hw.2 h


theorem merge_wf_aux : ∀ n : Nat, ∀ o : Json, sizeOf o ≤ n → wfB o = true →
    (deep_merge_json o o = o ∧
     ∀ b : Json, wfB b = true →
       deep_merge_json (deep_merge_json b o) o = deep_merge_json b o) := by
  intro n
  induction n with
  | zero =>
      intro o hs _
      exfalso
      cases o <;> simp at hs
  | succ n ih =>
      intro o hs ho
      cases o with
      | obj of =>
          simp only [wfB, Bool.and_eq_true] at ho
          obtain ⟨hnd, hwf⟩ := ho
          have hsz : sizeOf of ≤ n := by
            simp at hs
            omega
          have hself : deep_merge_json (.obj of) (.obj of) = .obj of := by
            have hkeys : (mergeFields of of).map Prod.fst = of.map Prod.fst :=
              keys_mergeFields_of_sub (fun k hk => hk)
            have hnd2 : nodupKeysB (mergeFields of of) = true := nodup_mergeFields hnd
            have hlook : ∀ k, lookupField (mergeFields of of) k = lookupField of k := by
              intro k
              rw [lookup_mergeFields hnd]
              cases hv : lookupField of k with
              | none => simp [mergeLook]
              | some v =>
                  have hszv := sizeOf_lookup_lt (lookup_mem hv)
                  have hvwf := wfFields_lookup hwf hv
                  have hvv := (ih v (by omega) hvwf).1
                  simp [mergeLook, hvv]
            have heq : deep_merge_json (Json.obj of) (Json.obj of)
                = Json.obj (mergeFields of of) := by
              simp [deep_merge_json]
            rw [heq]
            exact congrArg Json.obj (fields_ext hkeys hnd2 hlook)
          refine ⟨hself, ?_⟩
          intro b hb
          cases b with
          | obj bf =>
              simp only [wfB, Bool.and_eq_true] at hb
              obtain ⟨hndb, hwfb⟩ := hb
              have heq : deep_merge_json (Json.obj bf) (Json.obj of)
                  = Json.obj (mergeFields bf of) := by
                simp [deep_merge_json]
              rw [heq]
              have heq2 : deep_merge_json (Json.obj (mergeFields bf of)) (Json.obj of)
                  = Json.obj (mergeFields (mergeFields bf of) of) := by
                simp [deep_merge_json]
              rw [heq2]
              have hkeys : (mergeFields (mergeFields bf of) of).map Prod.fst
                  = (mergeFields bf of).map Prod.fst :=
                keys_mergeFields_of_sub (fun k hk => keyMem_mergeFields_right hk)
              have hnd1 : nodupKeysB (mergeFields bf of) = true := nodup_mergeFields hndb
              have hnd2 : nodupKeysB (mergeFields (mergeFields bf of) of) = true :=
                nodup_mergeFields hnd1
              have hlook : ∀ k, lookupField (mergeFields (mergeFields bf of) of) k
                  = lookupField (mergeFields bf of) k := by
                intro k
                simp only [lookup_mergeFields hnd]
                cases hov : lookupField of k with
                | none => cases lookupField bf k <;> simp [mergeLook]
                | some ov =>
                    have hszv := sizeOf_lookup_lt (lookup_mem hov)
                    have hovwf := wfFields_lookup hwf hov
                    cases hbv : lookupField bf k with
                    | none =>
                        simp only [mergeLook, Option.some.injEq]
                        exact (ih ov (by omega) hovwf).1
                    | some bv =>
                        have hbvwf := wfFields_lookup hwfb hbv
                        simp only [mergeLook, Option.some.injEq]
                        exact (ih ov (by omega) hovwf).2 bv hbvwf
              exact congrArg Json.obj (fields_ext hkeys hnd2 hlook)
          | null =>
              have heq : deep_merge_json Json.null (Json.obj of) = Json.obj of := by
                simp [deep_merge_json]
              rw [heq, hself]
          | bool x =>
              have heq : deep_merge_json (Json.bool x) (Json.obj of) = Json.obj of := by
                simp [deep_merge_json]
              rw [heq, hself]
          | num x =>
              have heq : deep_merge_json (Json.num x) (Json.obj of) = Json.obj of := by
                simp [deep_merge_json]
              rw [heq, hself]
          | str x =>
              have heq : deep_merge_json (Json.str x) (Json.obj of) = Json.obj of := by
                simp [deep_merge_json]
              rw [heq, hself]
          | arr x =>
              have heq : deep_merge_json (Json.arr x) (Json.obj of) = Json.obj of := by
                simp [deep_merge_json]
              rw [heq, hself]
      | null =>
          refine ⟨by simp [deep_merge_json], ?_⟩
          intro b _
          cases b <;> simp [deep_merge_json]
      | bool x =>
          refine ⟨by simp [deep_merge_json], ?_⟩
          intro b _
          cases b <;> simp [deep_merge_json]
      | num x =>
          refine ⟨by simp [deep_merge_json], ?_⟩
          intro b _
          cases b <;> simp [deep_merge_json]
      | str x =>
          refine ⟨by simp [deep_merge_json], ?_⟩
          intro b _
          cases b <;> simp [deep_merge_json]
      | arr x =>
          refine ⟨by simp [deep_merge_json], ?_⟩
          intro b _
          cases b <;> simp [deep_merge_json]

/-- C3: when both sides are objects, deep_merge_json (openclaw.rs 190-204)
recurses per key — overlay-only keys are inserted, base-only keys are left
untouched, shared keys merge recursively — and whenever either side is a
non-object value the overlay fully replaces the base; the two concrete spec
examples evaluate as stated (sequences are replaced, never merged). -/
theorem deep_merge_structural_spec :
    (∀ (b o : List (String × Json)) (k : String), nodupKeysB o = true →
        lookupField (mergeFields b o) k = mergeLook (lookupField b k) (lookupField o k))
    ∧ (∀ (base overlay : Json),
        ((∀ f, base ≠ Json.obj f) ∨ (∀ f, overlay ≠ Json.obj f)) →
        deep_merge_json base overlay = overlay)
    ∧ deep_merge_json
        (Json.obj [("a", Json.num 1), ("b", Json.obj [("x", Json.num 1)])])
        (Json.obj [("b", Json.obj [("y", Json.num 2)]), ("c", Json.num 3)])
      = Json.obj [("a", Json.num 1),
          ("b", Json.obj [("x", Json.num 1), ("y", Json.num 2)]), ("c", Json.num 3)]
    ∧ deep_merge_json (Json.obj [("a", Json.arr [Json.num 1, Json.num 2])])
        (Json.obj [("a", Json.arr [Json.num 3])])
      = Json.obj [("a", Json.arr [Json.num 3])] := by
  refine ⟨fun b o k ho => lookup_mergeFields ho b k, ?_, ?_, ?_⟩
  · intro base overlay h
    cases base <;> cases overlay <;> try simp [deep_merge_json]
    rcases h with h | h
    · exact absurd rfl (h _)
    · exact absurd rfl (h _)
  · simp [deep_merge_json, mergeFields, setKey]
  · simp [deep_merge_json, mergeFields, setKey]

/-- Witness for C3 at concrete inputs. -/
theorem deep_merge_structural_spec_witness :
    (nodupKeysB [("b", Json.num 2)] = true
      ∧ lookupField (mergeFields [("a", Json.num 1)] [("b", Json.num 2)]) "b"
          = mergeLook (lookupField [("a", Json.num 1)] "b")
              (lookupField [("b", Json.num 2)] "b"))
    ∧ ((∀ f, Json.num 5 ≠ Json.obj f) ∨ (∀ f, Json.num 7 ≠ Json.obj f))
    ∧ deep_merge_json (Json.num 5) (Json.num 7) = Json.num 7 := by
  refine ⟨⟨rfl, deep_merge_structural_spec.1 _ _ _ rfl⟩,
    Or.inl (fun f h => Json.noConfusion h), ?_⟩
  exact deep_merge_structural_spec.2.1 _ _ (Or.inl (fun f h => Json.noConfusion h))

/-- C10: the deep merge is idempotent in its overlay — for well-formed JSON
documents (objects carry duplicate-free keys, as every serde_json map does),
re-merging the same overlay into an already-merged document changes nothing. -/
theorem deep_merge_overlay_idempotent (base overlay : Json)
    (hb : wfB base = true) (ho : wfB overlay = true) :
    deep_merge_json (deep_merge_json base overlay) overlay
      = deep_merge_json base overlay :=
  (merge_wf_aux (sizeOf overlay) overlay le_rfl ho).2 base hb

/-- Witness for C10 at concrete inputs. -/
theorem deep_merge_overlay_idempotent_witness :
    wfB (Json.obj [("a", Json.num 1)]) = true
    ∧ wfB (Json.obj [("b", Json.obj [("c", Json.num 2)])]) = true
    ∧ deep_merge_json
        (deep_merge_json (Json.obj [("a", Json.num 1)])
          (Json.obj [("b", Json.obj [("c", Json.num 2)])]))
        (Json.obj [("b", Json.obj [("c", Json.num 2)])])
      = deep_merge_json (Json.obj [("a", Json.num 1)])
          (Json.obj [("b", Json.obj [("c", Json.num 2)])]) := by
  have h1 : wfB (Json.obj [("a", Json.num 1)]) = true := by
    simp [wfB, wfFields, nodupKeysB, keyMem]
  have h2 : wfB (Json.obj [("b", Json.obj [("c", Json.num 2)])]) = true := by
    simp [wfB, wfFields, nodupKeysB, keyMem]
  exact ⟨h1, h2, deep_merge_overlay_idempotent _ _ h1 h2⟩


/- ============================================================
   C1: group-write rollback
   ============================================================ -/

theorem write_codex_live_active_unchanged (fs : CodexFs) (a c : String) (tv w1 w2 : Bool) :
    (write_codex_live_atomic fs a c tv w1 w2).2.active = fs.active := by
  obtain ⟨au, cf, ac⟩ := fs
  cases tv <;> cases w1 <;> cases w2 <;> cases au <;> cases cf <;>
    simp [write_codex_live_atomic]

theorem write_codex_live_ok_iff (fs : CodexFs) (a c : String) (tv w1 w2 : Bool) :
    (write_codex_live_atomic fs a c tv w1 w2).1 = none
      ↔ (tv = true ∧ w1 = true ∧ w2 = true) := by
  cases tv <;> cases w1 <;> cases w2 <;> simp [write_codex_live_atomic]

/-- C1 (amended): in the codex apply path, when the second file write of the
two-file group (config.toml, written after auth.json) fails, every file of the
group is restored to its pre-call bytes and the error is propagated — the
whole filesystem state equals the pre-call state. The opencode apply path has
no such rollback: when its second write (the auth file) fails, the first file
keeps the freshly written bytes; only the files not yet written stay
unchanged. -/
theorem live_group_write_rollback :
    (∀ (fs : CodexFs) (a c : String),
        (write_codex_live_atomic fs a c true true false).1.isSome = true
        ∧ (write_codex_live_atomic fs a c true true false).2 = fs)
    ∧ (∀ (fs : OcFs) (nc na id : String),
        (apply_opencode_profile_fs fs true nc na id true false true).1.isSome = true
        ∧ (apply_opencode_profile_fs fs true nc na id true false true).2.config = some nc
        ∧ (apply_opencode_profile_fs fs true nc na id true false true).2.auth = fs.auth
        ∧ (apply_opencode_profile_fs fs true nc na id true false true).2.active = fs.active) := by
  constructor
  · intro fs a c
    obtain ⟨au, cf, ac⟩ := fs
    cases au <;> cases cf <;> simp [write_codex_live_atomic]
  · intro fs nc na id
    obtain ⟨cf, au, ac⟩ := fs
    simp [apply_opencode_profile_fs]

/-- C1 counterexample: an opencode apply whose auth write fails leaves the
config file with the new content, not the pre-call content — the claimed
universal rollback fails on the opencode two-file group. -/
theorem opencode_apply_no_rollback_cex :
    (apply_opencode_profile_fs ⟨some "old-config", some "old-auth", none⟩ true
        "new-config" "new-auth" "p1" true false true).1.isSome = true
    ∧ (apply_opencode_profile_fs ⟨some "old-config", some "old-auth", none⟩ true
        "new-config" "new-auth" "p1" true false true).2.config = some "new-config"
    ∧ some "new-config" ≠ some "old-config" := by
  refine ⟨rfl, rfl, by decide⟩

/- ============================================================
   C4: pointer update is the last step
   ============================================================ -/

/-- C4: in both the codex and the opencode apply paths the active-pointer file
changes only when every live-config write has succeeded (on success it holds
the applied id and the live files hold the new content); on any failure the
pointer file is unchanged. -/
theorem pointer_update_last :
    (∀ store (fs : CodexFs) id ser tomlOk w1 w2 w3,
        ((apply_codex_profile store fs id ser tomlOk w1 w2 w3).1 ≠ none →
          (apply_codex_profile store fs id ser tomlOk w1 w2 w3).2.active = fs.active)
        ∧ ((apply_codex_profile store fs id ser tomlOk w1 w2 w3).1 = none →
          (apply_codex_profile store fs id ser tomlOk w1 w2 w3).2.active = some id
          ∧ w1 = true ∧ w2 = true ∧ w3 = true))
    ∧ (∀ (fs : OcFs) pl nc na id w1 w2 w3,
        ((apply_opencode_profile_fs fs pl nc na id w1 w2 w3).1 ≠ none →
          (apply_opencode_profile_fs fs pl nc na id w1 w2 w3).2.active = fs.active)
        ∧ ((apply_opencode_profile_fs fs pl nc na id w1 w2 w3).1 = none →
          (apply_opencode_profile_fs fs pl nc na id w1 w2 w3).2.active = some id
          ∧ (apply_opencode_profile_fs fs pl nc na id w1 w2 w3).2.config = some nc
          ∧ (apply_opencode_profile_fs fs pl nc na id w1 w2 w3).2.auth = some na)) := by
  constructor
  · intro store fs id ser tomlOk w1 w2 w3
    cases hload : load_profile_by_id store id with
    | error e =>
        constructor
        · intro _
          simp [apply_codex_profile, hload]
        · intro h
          simp [apply_codex_profile, hload] at h
    | ok p =>
        have hact := write_codex_live_active_unchanged fs (ser p.auth) p.config_toml
          (tomlOk p.config_toml) w1 w2
        have hiff := write_codex_live_ok_iff fs (ser p.auth) p.config_toml
          (tomlOk p.config_toml) w1 w2
        cases hr : (write_codex_live_atomic fs (ser p.auth) p.config_toml
            (tomlOk p.config_toml) w1 w2).1 with
        | some e =>
            constructor
            · intro _
              simp [apply_codex_profile, hload, hr, hact]
            · intro h
              simp [apply_codex_profile, hload, hr] at h
        | none =>
            cases w3
            · constructor
              · intro _
                simp [apply_codex_profile, hload, hr, hact]
              · intro h
                simp [apply_codex_profile, hload, hr] at h
            · constructor
              · intro h
                simp [apply_codex_profile, hload, hr] at h
              · intro _
                rw [hr] at hiff
                have hf := hiff.mp rfl
                refine ⟨?_, hf.2.1, hf.2.2, rfl⟩
                simp [apply_codex_profile, hload, hr]
  · intro fs pl nc na id w1 w2 w3
    obtain ⟨cf, au, ac⟩ := fs
    cases pl <;> cases w1 <;> cases w2 <;> cases w3 <;>
      simp [apply_opencode_profile_fs]

/-- Witness for C4: a fully successful apply writes the pointer, a failing one
leaves it unchanged. -/
theorem pointer_update_last_witness :
    ((apply_codex_profile [("p1", exCodexProfile)] ⟨none, none, none⟩ "p1"
        (fun _ => "AUTH") (fun _ => true) true true true).1 = none
      ∧ (apply_codex_profile [("p1", exCodexProfile)] ⟨none, none, none⟩ "p1"
        (fun _ => "AUTH") (fun _ => true) true true true).2.active = some "p1")
    ∧ ((apply_codex_profile [("p1", exCodexProfile)] ⟨none, none, none⟩ "p1"
        (fun _ => "AUTH") (fun _ => true) true false true).1 ≠ none
      ∧ (apply_codex_profile [("p1", exCodexProfile)] ⟨none, none, none⟩ "p1"
        (fun _ => "AUTH") (fun _ => true) true false true).2.active = none)
    ∧ ((apply_opencode_profile_fs ⟨none, none, none⟩ true "C" "A" "p2" true true true).1 = none
      ∧ (apply_opencode_profile_fs ⟨none, none, none⟩ true "C" "A" "p2" true true true).2.active = some "p2") := by
  refine ⟨⟨rfl, ?_⟩, ⟨?_, ?_⟩, ⟨rfl, ?_⟩⟩
  · exact ((pointer_update_last.1 [("p1", exCodexProfile)] ⟨none, none, none⟩ "p1"
      (fun _ => "AUTH") (fun _ => true) true true true).2 rfl).1
  · intro h
    exact Option.noConfusion h
  · exact (pointer_update_last.1 [("p1", exCodexProfile)] ⟨none, none, none⟩ "p1"
      (fun _ => "AUTH") (fun _ => true) true false true).1 (fun h => Option.noConfusion h)
  · exact ((pointer_update_last.2 ⟨none, none, none⟩ true "C" "A" "p2" true true true).2 rfl).1

/- ============================================================
   C2: foreign top-level keys under apply
   ============================================================ -/

theorem lookup_insertField_ne {k k0 : String} (hne : k ≠ k0)
    (pf : List (String × Json)) (v : Json) :
    lookupField (insertField pf k0 v) k = lookupField pf k := by
  have hne2 : k0 ≠ k := fun h => hne h.symm
  induction pf with
  | nil => simp [insertField, lookupField, hne2]
  | cons hd tl ih =>
      obtain ⟨k1, v1⟩ := hd
      by_cases h : k1 = k0
      · subst h
        simp [insertField, lookupField, hne2]
      · simp [insertField, lookupField, h, ih]

theorem lookup_insertAllFields_not_mem {k : String} {pauth : List (String × Json)}
    (h : keyMem k pauth = false) (pf : List (String × Json)) :
    lookupField (insertAllFields pf pauth) k = lookupField pf k := by
  induction pauth generalizing pf with
  | nil => simp [insertAllFields]
  | cons hd rest ih =>
      obtain ⟨k0, v0⟩ := hd
      simp only [keyMem, Bool.or_eq_false_iff] at h
      have hk : k ≠ k0 := by
        intro he
        rw [he] at h
        simp at h
      rw [insertAllFields, ih h.2, lookup_insertField_ne hk]

theorem lookup_append_single_ne {k k1 : String} (hne : k ≠ k1)
    (l : List (String × Json)) (v1 : Json) :
    lookupField (l ++ [(k1, v1)]) k = lookupField l k := by
  have hne2 : k1 ≠ k := fun h => hne h.symm
  induction l with
  | nil => simp [lookupField, hne2]
  | cons hd tl ih =>
      obtain ⟨k0, v0⟩ := hd
      by_cases h : k0 = k <;> simp [lookupField, h, ih]

theorem lookup_mapValueAt_ne {k k0 : String} (hne : k ≠ k0)
    (l : List (String × Json)) (f : Json → Json) :
    lookupField (mapValueAt l k0 f) k = lookupField l k := by
  have hne2 : k0 ≠ k := fun h => hne h.symm
  induction l with
  | nil => simp [mapValueAt]
  | cons hd tl ih =>
      obtain ⟨k1, v1⟩ := hd
      by_cases h : k1 = k0
      · subst h
        simp [mapValueAt, lookupField, hne2]
      · simp [mapValueAt, lookupField, h, ih]

theorem lookup_mergeFields_not_mem {k : String} {o : List (String × Json)}
    (h : keyMem k o = false) (b : List (String × Json)) :
    lookupField (mergeFields b o) k = lookupField b k := by
  induction o generalizing b with
  | nil => simp [mergeFields]
  | cons hd rest ih =>
      obtain ⟨k0, v0⟩ := hd
      simp only [keyMem, Bool.or_eq_false_iff] at h
      have hk : k ≠ k0 := by
        intro he
        rw [he] at h
        simp at h
      rw [mergeFields, ih h.2, lookup_setKey_ne hk]

theorem keyMem_append (k : String) (l1 l2 : List (String × Json)) :
    keyMem k (l1 ++ l2) = (keyMem k l1 || keyMem k l2) := by
  induction l1 with
  | nil => simp [keyMem]
  | cons hd tl ih =>
      obtain ⟨k0, v0⟩ := hd
      simp [keyMem, ih, Bool.or_assoc]

theorem build_fields_no_foreign {profile : OpenClawProfileR} {k : String}
    (h1 : k ≠ "agents") (h2 : k ≠ "models") :
    keyMem k (build_openclaw_config_fields profile) = false := by
  have ha : ¬("agents" = k) := fun he => h1 he.symm
  have hm : ¬("models" = k) := fun he => h2 he.symm
  simp only [build_openclaw_config_fields]
  rw [keyMem_append]
  simp only [Bool.or_eq_false_iff]
  constructor
  · split <;> simp [keyMem, ha]
  · split <;> simp [keyMem, hm]

/-- C2 (amended): the merge-writing adapters preserve foreign top-level keys —
the opencode config write touches only the "provider" entry, the opencode auth
write touches only the keys the profile's auth object sets, and the openclaw
config write touches only "agents" and "models". (The codex adapter instead
replaces auth.json wholesale, dropping foreign keys; see the counterexample.) -/
theorem foreign_keys_preserved :
    (∀ (fields provs : List (String × Json)) (k : String), k ≠ "provider" →
        lookupJson (apply_providers_to_config (Json.obj fields) provs) k
          = lookupField fields k)
    ∧ (∀ (fields pauth : List (String × Json)) (k : String), keyMem k pauth = false →
        lookupJson (apply_auth_to_auth (Json.obj fields) pauth) k
          = lookupField fields k)
    ∧ (∀ (existing : List (String × Json)) (profile : OpenClawProfileR) (k : String),
        k ≠ "agents" → k ≠ "models" →
        lookupJson (write_openclaw_config_doc (Json.obj existing) profile) k
          = lookupField existing k) := by
  refine ⟨?_, ?_, ?_⟩
  · intro fields provs k hk
    by_cases hp : provs.isEmpty = true
    · simp [apply_providers_to_config, hp, lookupJson]
    · simp only [apply_providers_to_config, hp, if_false, Bool.false_eq_true, ite_false,
        lookupJson]
      rw [lookup_mapValueAt_ne hk]
      by_cases hpm : keyMem "provider" fields = true
      · simp [hpm]
      · simp only [hpm, Bool.false_eq_true, ite_false]
        rw [lookup_append_single_ne hk]
  · intro fields pauth k hk
    by_cases hp : pauth.isEmpty = true
    · simp [apply_auth_to_auth, hp, lookupJson]
    · simp only [apply_auth_to_auth, hp, Bool.false_eq_true, ite_false, lookupJson]
      exact lookup_insertAllFields_not_mem hk fields
  · intro existing profile k h1 h2
    have hkm : keyMem k (build_openclaw_config_fields profile) = false :=
      build_fields_no_foreign h1 h2
    simp only [write_openclaw_config_doc, build_openclaw_config]
    rw [show deep_merge_json (Json.obj existing)
          (Json.obj (build_openclaw_config_fields profile))
        = Json.obj (mergeFields existing (build_openclaw_config_fields profile)) from by
      simp [deep_merge_json]]
    simp only [lookupJson]
    exact lookup_mergeFields_not_mem hkm existing

/-- Witness for C2: a live document carrying the foreign key "theme": "dark"
still carries it after each merge-writing apply step. -/
theorem foreign_keys_preserved_witness :
    ("theme" ≠ "provider"
      ∧ lookupJson (apply_providers_to_config (Json.obj [("theme", Json.str "dark")])
          [("acme", Json.obj [])]) "theme"
        = lookupField [("theme", Json.str "dark")] "theme")
    ∧ (keyMem "theme" [("acme", Json.obj [])] = false
      ∧ lookupJson (apply_auth_to_auth (Json.obj [("theme", Json.str "dark")])
          [("acme", Json.obj [])]) "theme"
        = lookupField [("theme", Json.str "dark")] "theme")
    ∧ ("theme" ≠ "agents" ∧ "theme" ≠ "models"
      ∧ lookupJson (write_openclaw_config_doc (Json.obj [("theme", Json.str "dark")])
          exOpenClawProfile) "theme"
        = lookupField [("theme", Json.str "dark")] "theme") := by
  refine ⟨⟨by decide, foreign_keys_preserved.1 _ _ _ (by decide)⟩,
    ⟨rfl, foreign_keys_preserved.2.1 _ _ _ rfl⟩,
    ⟨by decide, by decide, foreign_keys_preserved.2.2 _ _ _ (by decide) (by decide)⟩⟩

/-- C2 counterexample: the codex apply path writes auth.json as exactly the
profile's auth object (write_json_object_file), so a foreign key "theme" that
the previous document carried is dropped from the resulting live file. -/
theorem codex_auth_replaces_document_cex :
    write_json_object_file (some (Json.obj [("theme", Json.str "dark")]))
        [("OPENAI_API_KEY", Json.str "k")]
      = some (Json.obj [("OPENAI_API_KEY", Json.str "k")])
    ∧ lookupField [("OPENAI_API_KEY", Json.str "k")] "theme" = none
    ∧ lookupField [("theme", Json.str "dark")] "theme" = some (Json.str "dark") := by
  refine ⟨rfl, ?_, ?_⟩ <;> simp [lookupField]


/- ============================================================
   C5: save then get
   ============================================================ -/

theorem storeLookup_insert_self {α : Type} (s : List (String × α)) (k : String) (v : α) :
    storeLookup (storeInsert s k v) k = some v := by
  induction s with
  | nil => simp [storeInsert, storeLookup]
  | cons hd tl ih =>
      obtain ⟨k0, v0⟩ := hd
      by_cases h : k0 = k <;> simp [storeInsert, storeLookup, h, ih]

theorem storeLookup_remove_self {α : Type} (s : List (String × α)) (k : String) :
    storeLookup (storeRemove s k) k = none := by
  induction s with
  | nil => simp [storeRemove, storeLookup]
  | cons hd tl ih =>
      obtain ⟨k0, v0⟩ := hd
      by_cases h : k0 = k <;> simp [storeRemove, storeLookup, h, ih]

/-- C5 (amended): the codex save follows the spec — an existing stored id keeps
the stored created_at, a blank id gets the fresh generated id with
created_at := now, a new nonblank id keeps the caller record — and in every
case updated_at is refreshed and get returns exactly the persisted record.
The opencode save instead persists the caller record as is (updated_at
refreshed): the caller's created_at wins and no id is ever generated. -/
theorem save_then_get :
    (∀ store (p : CodexProfileR) (now freshId : String) old,
        trimS p.id ≠ "" → validate_profile_id p.id = true →
        storeLookup store p.id = some old →
        save_codex_profile store p now freshId
          = Except.ok (storeInsert store p.id
              { p with created_at := old.created_at, updated_at := now })
        ∧ get_codex_profile
            (storeInsert store p.id { p with created_at := old.created_at, updated_at := now })
            p.id
          = Except.ok { p with created_at := old.created_at, updated_at := now })
    ∧ (∀ store (p : CodexProfileR) (now freshId : String),
        trimS p.id = "" → validate_profile_id freshId = true →
        save_codex_profile store p now freshId
          = Except.ok (storeInsert store freshId
              { p with id := freshId, created_at := now, updated_at := now })
        ∧ get_codex_profile
            (storeInsert store freshId { p with id := freshId, created_at := now, updated_at := now })
            freshId
          = Except.ok { p with id := freshId, created_at := now, updated_at := now })
    ∧ (∀ store (p : CodexProfileR) (now freshId : String),
        trimS p.id ≠ "" → validate_profile_id p.id = true →
        storeLookup store p.id = none → trimS p.created_at ≠ "" →
        save_codex_profile store p now freshId
          = Except.ok (storeInsert store p.id { p with updated_at := now })
        ∧ get_codex_profile (storeInsert store p.id { p with updated_at := now }) p.id
          = Except.ok { p with updated_at := now })
    ∧ (∀ store (p : OcProfileR) (now : String),
        save_opencode_profile store p now
          = storeInsert store (ocProfilePath p.id) { p with updated_at := now }
        ∧ get_opencode_profile (save_opencode_profile store p now) p.id
          = Except.ok { p with updated_at := now }) := by
  refine ⟨?_, ?_, ?_, ?_⟩
  · intro store p now freshId old h1 h2 h3
    constructor
    · simp [save_codex_profile, h1, h2, h3, write_profile_file]
    · simp [get_codex_profile, load_profile_by_id, h2, storeLookup_insert_self]
  · intro store p now freshId h1 h2
    constructor
    · simp [save_codex_profile, h1, write_profile_file, h2]
    · simp [get_codex_profile, load_profile_by_id, h2, storeLookup_insert_self]
  · intro store p now freshId h1 h2 h3 h4
    constructor
    · simp [save_codex_profile, h1, h2, h3, h4, write_profile_file]
    · simp [get_codex_profile, load_profile_by_id, h2, storeLookup_insert_self]
  · intro store p now
    constructor
    · rfl
    · simp [get_opencode_profile, save_opencode_profile, storeLookup_insert_self]

/-- Witness for C5 at concrete stores. -/
theorem save_then_get_witness :
    (trimS "p1" ≠ "" ∧ validate_profile_id "p1" = true
      ∧ storeLookup [("p1", exCodexProfile)] "p1" = some exCodexProfile
      ∧ get_codex_profile
          (storeInsert [("p1", exCodexProfile)] "p1"
            { (⟨"p1", "New", none, "2099", "x",
                [("OPENAI_API_KEY", Json.str "k")], "model = 1"⟩ : CodexProfileR) with
              created_at := exCodexProfile.created_at, updated_at := "2100" })
          "p1"
        = Except.ok
            { (⟨"p1", "New", none, "2099", "x",
                [("OPENAI_API_KEY", Json.str "k")], "model = 1"⟩ : CodexProfileR) with
              created_at := exCodexProfile.created_at, updated_at := "2100" })
    ∧ get_opencode_profile (save_opencode_profile [] exOcStored "2100") "p"
        = Except.ok { exOcStored with updated_at := "2100" } := by
  refine ⟨⟨?_, rfl, rfl, ?_⟩, ?_⟩
  · intro h
    exact absurd h (by decide)
  · exact (save_then_get.1 [("p1", exCodexProfile)]
      ⟨"p1", "New", none, "2099", "x", [("OPENAI_API_KEY", Json.str "k")], "model = 1"⟩
      "2100" "f" exCodexProfile (by decide) rfl rfl).2
  · exact (save_then_get.2.2.2 [] exOcStored "2100").2

/-- C5 counterexample: saving over a stored opencode profile does not preserve
the stored created_at — the caller's created_at wins. -/
theorem opencode_save_caller_created_at_cex :
    get_opencode_profile
        (save_opencode_profile [(ocProfilePath "p", exOcStored)] exOcCaller
          "2099-06-01T00:00:00Z") "p"
      = Except.ok { exOcCaller with updated_at := "2099-06-01T00:00:00Z" }
    ∧ ({ exOcCaller with updated_at := "2099-06-01T00:00:00Z" } : OcProfileR).created_at
        ≠ exOcStored.created_at := by
  exact ⟨rfl, by decide⟩


/- ============================================================
   C6: identifier validation
   ============================================================ -/

/-- C6 (amended): every codex path-deriving operation on a nonblank id failing
the character check (get, delete, duplicate, apply, and save) fails with the
invalid-identifier error and leaves every store and live file untouched (for
save, a blank id is instead assigned the freshly generated id, claim C5). The
opencode operations perform no id validation at all: get derives the file path
from any id, path-traversal ids included, and reads it. -/
theorem invalid_id_rejected :
    (∀ id, validate_profile_id id = false →
      (∀ store, get_codex_profile store id = Except.error "Invalid profile id")
      ∧ (∀ store active, delete_codex_profile store active id
          = Except.error "Invalid profile id")
      ∧ (∀ store newName now freshId,
          duplicate_codex_profile store id newName now freshId
            = Except.error "Invalid profile id")
      ∧ (∀ store fs ser tomlOk w1 w2 w3,
          apply_codex_profile store fs id ser tomlOk w1 w2 w3
            = (some "Invalid profile id", fs)))
    ∧ (∀ store (p : CodexProfileR) now freshId, validate_profile_id p.id = false →
        trimS p.id ≠ "" →
        save_codex_profile store p now freshId = Except.error "Invalid profile id")
    ∧ (∀ store id prof, storeLookup store (ocProfilePath id) = some prof →
        get_opencode_profile store id = Except.ok prof) := by
  refine ⟨?_, ?_, ?_⟩
  · intro id h
    refine ⟨?_, ?_, ?_, ?_⟩
    · intro store
      simp [get_codex_profile, load_profile_by_id, h]
    · intro store active
      simp [delete_codex_profile, h]
    · intro store newName now freshId
      simp [duplicate_codex_profile, load_profile_by_id, h]
    · intro store fs ser tomlOk w1 w2 w3
      simp [apply_codex_profile, load_profile_by_id, h]
  · intro store p now freshId h1 h2
    simp [save_codex_profile, h1, h2]
  · intro store id prof h
    simp [get_opencode_profile, h]

/-- Witness for C6 at a concrete traversal id. -/
theorem invalid_id_rejected_witness :
    validate_profile_id "../evil" = false
    ∧ get_codex_profile [] "../evil" = Except.error "Invalid profile id"
    ∧ delete_codex_profile [] none "../evil" = Except.error "Invalid profile id"
    ∧ storeLookup [(ocProfilePath "../evil", exOcTraversal)] (ocProfilePath "../evil")
        = some exOcTraversal
    ∧ get_opencode_profile [(ocProfilePath "../evil", exOcTraversal)] "../evil"
        = Except.ok exOcTraversal := by
  refine ⟨rfl, (invalid_id_rejected.1 "../evil" rfl).1 [], (invalid_id_rejected.1 "../evil" rfl).2.1 [] none, rfl, ?_⟩
  exact invalid_id_rejected.2.2 [(ocProfilePath "../evil", exOcTraversal)] "../evil" exOcTraversal rfl

/-- C6 counterexample: for the id "../evil" — invalid by the claim's own
character check — the opencode get does not fail with an invalid-identifier
error; it derives the escaping path and reads the file there. -/
theorem opencode_get_no_validation_cex :
    validate_profile_id "../evil" = false
    ∧ get_opencode_profile [(ocProfilePath "../evil", exOcTraversal)] "../evil"
        = Except.ok exOcTraversal
    ∧ ocProfilePath "../evil" = "profiles/../evil.json" := by
  exact ⟨rfl, rfl, rfl⟩

theorem delete_codex_ok (store : List (String × CodexProfileR))
    (active : Option String) (id : String) (h : validate_profile_id id = true) :
    delete_codex_profile store active id
      = Except.ok (storeRemove store id,
          match activeIdOf active with
          | some a => if a = id then none else active
          | none => active) := by
  simp [delete_codex_profile, h]

/- ============================================================
   C8: delete idempotence and pointer clearing
   ============================================================ -/

/-- C8: for both families, delete removes the profile document when present,
succeeds when it is absent (so a second delete also succeeds), and when the
deleted id is the active pointer the pointer is cleared within the same
operation, making a subsequent pointer get return none. -/
theorem delete_idempotent_pointer :
    (∀ store (active : Option String) id, validate_profile_id id = true →
        ∃ rest, delete_codex_profile store active id = Except.ok rest
          ∧ storeLookup rest.1 id = none
          ∧ (∃ rest2, delete_codex_profile rest.1 rest.2 id = Except.ok rest2)
          ∧ (activeIdOf active = some id → activeIdOf rest.2 = none))
    ∧ (∀ store (active : Option String) id,
        storeLookup (delete_opencode_profile store active id).1 (ocProfilePath id) = none
        ∧ (get_active_opencode_profile_id active = some id →
            get_active_opencode_profile_id (delete_opencode_profile store active id).2
              = none)) := by
  constructor
  · intro store active id h
    refine ⟨_, delete_codex_ok store active id h, storeLookup_remove_self store id,
      ⟨_, delete_codex_ok _ _ _ h⟩, ?_⟩
    intro hact
    rw [hact]
    simp [activeIdOf]
  · intro store active id
    constructor
    · exact storeLookup_remove_self store (ocProfilePath id)
    · intro hact
      cases active with
      | none => simp [get_active_opencode_profile_id, activeIdOf] at hact
      | some c =>
          simp only [get_active_opencode_profile_id, activeIdOf] at hact
          by_cases he : trimS c = ""
          · simp [he] at hact
          · simp only [he, if_false, ite_false, Option.some.injEq] at hact
            simp [delete_opencode_profile, hact, get_active_opencode_profile_id, activeIdOf]

/-- Witness for C8 at concrete stores. -/
theorem delete_idempotent_pointer_witness :
    validate_profile_id "p1" = true
    ∧ (∃ rest, delete_codex_profile [("p1", exCodexProfile)] (some "p1") "p1"
          = Except.ok rest
        ∧ storeLookup rest.1 "p1" = none
        ∧ (∃ rest2, delete_codex_profile rest.1 rest.2 "p1" = Except.ok rest2)
        ∧ (activeIdOf (some "p1") = some "p1" → activeIdOf rest.2 = none))
    ∧ get_active_opencode_profile_id (some "p2") = some "p2"
    ∧ get_active_opencode_profile_id
        (delete_opencode_profile [] (some "p2") "p2").2 = none := by
  refine ⟨rfl, delete_idempotent_pointer.1 [("p1", exCodexProfile)] (some "p1") "p1" rfl, rfl, ?_⟩
  exact (delete_idempotent_pointer.2 [] (some "p2") "p2").2 rfl



/- ============================================================
   C9: adapter reads on absent, empty or unparsable files
   ============================================================ -/

/-- C9 (amended): every cited reader returns an empty document for an absent
file and (where applicable) for a blank file; the comment-tolerant opencode
reader also returns the empty document for unreadable, comment-strip-failing
and unparsable content. The codex JSON-object reader instead returns a
MalformedDocument error for unparsable content, and the factory settings
reader a ParseError. -/
theorem adapter_read_bootstrap :
    (∀ parse, read_json_object_file FileState.absent parse = Except.ok [])
    ∧ (∀ parse s, trimS s = "" →
        read_json_object_file (FileState.content s) parse = Except.ok [])
    ∧ (∀ parse s e, trimS s ≠ "" → parse s = Except.error e →
        read_json_object_file (FileState.content s) parse
          = Except.error ("Invalid JSON: " ++ e))
    ∧ (∀ strip parse, read_json_file FileState.absent strip parse = Json.obj [])
    ∧ (∀ strip parse, read_json_file FileState.unreadable strip parse = Json.obj [])
    ∧ (∀ strip parse s, strip s = none →
        read_json_file (FileState.content s) strip parse = Json.obj [])
    ∧ (∀ strip parse s buf e, strip s = some buf → parse buf = Except.error e →
        read_json_file (FileState.content s) strip parse = Json.obj [])
    ∧ (∀ parse, read_config_file FileState.absent parse = ConfigReadResult.notFound)
    ∧ (∀ parse s, trimS s = "" →
        read_config_file (FileState.content s) parse = ConfigReadResult.notFound)
    ∧ (∀ parse s e, trimS s ≠ "" → parse s = Except.error e →
        read_config_file (FileState.content s) parse
          = ConfigReadResult.parseError ("Failed to parse config JSON: " ++ e)) := by
  refine ⟨fun parse => rfl, ?_, ?_, fun strip parse => rfl, fun strip parse => rfl,
    ?_, ?_, fun parse => rfl, ?_, ?_⟩
  · intro parse s h
    simp [read_json_object_file, h]
  · intro parse s e h1 h2
    simp [read_json_object_file, h1, h2]
  · intro strip parse s h
    simp [read_json_file, h]
  · intro strip parse s buf e h1 h2
    simp [read_json_file, h1, h2]
  · intro parse s h
    simp [read_config_file, h]
  · intro parse s e h1 h2
    simp [read_config_file, h1, h2]

/-- Witness for C9 at concrete file states. -/
theorem adapter_read_bootstrap_witness :
    (trimS "  " = ""
      ∧ read_json_object_file (FileState.content "  ") parseAlwaysFails = Except.ok [])
    ∧ (trimS "x" ≠ "" ∧ parseAlwaysFails "x" = Except.error "expected value"
      ∧ read_json_object_file (FileState.content "x") parseAlwaysFails
          = Except.error ("Invalid JSON: " ++ "expected value"))
    ∧ ((fun s => some s) "x" = some "x"
      ∧ parseAlwaysFails "x" = Except.error "expected value"
      ∧ read_json_file (FileState.content "x") (fun s => some s) parseAlwaysFails
          = Json.obj [])
    ∧ (trimS "x" ≠ "" ∧ read_config_file (FileState.content "x") parseAlwaysFails
        = ConfigReadResult.parseError ("Failed to parse config JSON: " ++ "expected value")) := by
  refine ⟨⟨rfl, adapter_read_bootstrap.2.1 parseAlwaysFails "  " rfl⟩,
    ⟨?hne, rfl, adapter_read_bootstrap.2.2.1 parseAlwaysFails "x" "expected value" ?hne rfl⟩,
    ⟨rfl, rfl, adapter_read_bootstrap.2.2.2.2.2.2.1 (fun s => some s) parseAlwaysFails "x" "x"
      "expected value" rfl rfl⟩,
    ⟨?hne, adapter_read_bootstrap.2.2.2.2.2.2.2.2.2 parseAlwaysFails "x" "expected value" ?hne rfl⟩⟩
  case hne =>
    intro h
    exact absurd h (by decide)

/-- C9 counterexample: on unparsable content the codex JSON-object reader
returns an error, not an empty document (the opencode reader does return the
empty document on the same content). -/
theorem codex_read_unparsable_errors_cex :
    read_json_object_file (FileState.content "x") parseAlwaysFails
      = Except.error "Invalid JSON: expected value"
    ∧ read_json_file (FileState.content "x") (fun s => some s) parseAlwaysFails
      = Json.obj [] := by
  exact ⟨rfl, rfl⟩


/- ============================================================
   C7: listing profiles
   ============================================================ -/

theorem charListLe_total : ∀ xs ys : List Char,
    charListLe xs ys = true ∨ charListLe ys xs = true := by
  intro xs
  induction xs with
  | nil => intro ys; exact Or.inl rfl
  | cons a as ih =>
      intro ys
      cases ys with
      | nil => exact Or.inr rfl
      | cons b bs =>
          by_cases h1 : a.toNat < b.toNat
          · left; simp [charListLe, h1]
          · by_cases h2 : b.toNat < a.toNat
            · right; simp [charListLe, h2]
            · rcases ih bs with h | h
              · left; simp [charListLe, h1, h2, h]
              · right; simp [charListLe, h1, h2, h]

theorem charListLe_trans : ∀ xs ys zs : List Char,
    charListLe xs ys = true → charListLe ys zs = true → charListLe xs zs = true := by
  intro xs
  induction xs with
  | nil => intro ys zs h1 h2; rfl
  | cons a as ih =>
      intro ys zs h1 h2
      cases ys with
      | nil => simp [charListLe] at h1
      | cons b bs =>
          cases zs with
          | nil => simp [charListLe] at h2
          | cons c cs =>
              simp only [charListLe] at h1 h2 ⊢
              split at h1
              · rename_i hab
                split at h2
                · rename_i hbc
                  simp [show a.toNat < c.toNat by omega]
                · split at h2
                  · simp at h2
                  · rename_i hbc hcb
                    simp [show a.toNat < c.toNat by omega]
              · split at h1
                · simp at h1
                · rename_i hab hba
                  split at h2
                  · rename_i hbc
                    simp [show a.toNat < c.toNat by omega]
                  · split at h2
                    · simp at h2
                    · rename_i hbc hcb
                      have hac : ¬ a.toNat < c.toNat := by omega
                      have hca : ¬ c.toNat < a.toNat := by omega
                      simp only [hac, hca, if_false, ite_false]
                      exact ih bs cs h1 h2

theorem mem_insertSorted {α : Type} (le : α → α → Bool) (x : α) (l : List α) (a : α) :
    a ∈ insertSorted le x l ↔ a = x ∨ a ∈ l := by
  induction l with
  | nil => simp [insertSorted]
  | cons y tl ih =>
      by_cases hc : (le y x && !le x y) = true
      · rw [insertSorted, if_pos hc]
        simp only [List.mem_cons, ih]
        tauto
      · rw [insertSorted, if_neg hc]
        simp only [List.mem_cons]

theorem pairwise_insertSorted {α : Type} (le : α → α → Bool)
    (htot : ∀ a b, le a b = true ∨ le b a = true)
    (htrans : ∀ a b c, le a b = true → le b c = true → le a c = true)
    (x : α) (l : List α) (h : l.Pairwise (fun a b => le a b = true)) :
    (insertSorted le x l).Pairwise (fun a b => le a b = true) := by
  induction l with
  | nil => simp [insertSorted]
  | cons y tl ih =>
      rw [List.pairwise_cons] at h
      obtain ⟨hy, htl⟩ := h
      by_cases hc : (le y x && !le x y) = true
      · simp only [insertSorted, hc, if_true, ite_true, List.pairwise_cons]
        refine ⟨?_, ih htl⟩
        intro b hb
        rcases (mem_insertSorted le x tl b).mp hb with rfl | hb
        · exact (Bool.and_eq_true _ _ |>.mp hc).1
        · exact hy b hb
      · have hxy : le x y = true := by
          by_cases hxyb : le x y = true
          · exact hxyb
          · exfalso
            have hyx : le y x = true := by
              rcases htot x y with h | h
              · exact absurd h hxyb
              · exact h
            have hf : le x y = false := by
              cases hfe : le x y
              · rfl
              · exact absurd hfe hxyb
            apply hc
            rw [hyx, hf]
            rfl
        simp only [insertSorted, hc, Bool.false_eq_true, ite_false, List.pairwise_cons]
        refine ⟨?_, ?_, htl⟩
        · intro b hb
          rcases List.mem_cons.mp hb with rfl | hb
          · exact hxy
          · exact htrans x y b hxy (hy b hb)
        · exact hy
      -- trailing
theorem perm_insertSorted {α : Type} (le : α → α → Bool) (x : α) (l : List α) :
    (insertSorted le x l).Perm (x :: l) := by
  induction l with
  | nil => exact List.Perm.refl _
  | cons y tl ih =>
      by_cases hc : (le y x && !le x y) = true
      · simp only [insertSorted, hc, if_true, ite_true]
        exact (ih.cons y).trans (List.Perm.swap x y tl)
      · simp only [insertSorted, hc, Bool.false_eq_true, ite_false]
        exact List.Perm.refl _

theorem perm_sortBy {α : Type} (le : α → α → Bool) (l : List α) :
    (sortBy le l).Perm l := by
  induction l with
  | nil => exact List.Perm.refl _
  | cons x tl ih =>
      exact (perm_insertSorted le x (sortBy le tl)).trans (ih.cons x)

theorem pairwise_sortBy {α : Type} (le : α → α → Bool)
    (htot : ∀ a b, le a b = true ∨ le b a = true)
    (htrans : ∀ a b c, le a b = true → le b c = true → le a c = true)
    (l : List α) : (sortBy le l).Pairwise (fun a b => le a b = true) := by
  induction l with
  | nil => simp [sortBy]
  | cons x tl ih => exact pairwise_insertSorted le htot htrans x (sortBy le tl) ih

theorem parsedEntries_eq {α : Type} (parse : String → Option α)
    (entries : List (String × String)) :
    parsedEntries parse entries
      = entries.filterMap (fun e => if hasJsonExt e.1 then parse e.2 else none) := by
  have aux : ∀ (es : List (String × String)) (acc : List α),
      es.foldl
        (fun acc e =>
          if hasJsonExt e.1 then
            match parse e.2 with
            | some p => acc ++ [p]
            | none => acc
          else acc) acc
        = acc ++ es.filterMap (fun e => if hasJsonExt e.1 then parse e.2 else none) := by
    intro es
    induction es with
    | nil => intro acc; simp
    | cons e tl ih =>
        intro acc
        by_cases hx : hasJsonExt e.1 = true
        · cases hp : parse e.2 with
          | none => simp [List.foldl_cons, hx, hp, List.filterMap_cons, ih]
          | some p => simp [List.foldl_cons, hx, hp, List.filterMap_cons, ih]
        · simp [List.foldl_cons, hx, List.filterMap_cons, ih]
  exact (aux entries []).trans (by simp)

/-- C7 (amended): both list operations return exactly the profiles whose
json-extension files parse successfully (a permutation of that collection;
corrupt files are silently skipped and never fail the listing). The codex list
is sorted by case-insensitive display name; the opencode list is sorted by
case-sensitive (byte-order) display name. -/
theorem list_profiles_spec :
    (∀ parse entries,
        (list_codex_profiles parse entries).Perm
            (entries.filterMap (fun e => if hasJsonExt e.1 then parse e.2 else none))
        ∧ (∀ p, p ∈ list_codex_profiles parse entries ↔
            ∃ e ∈ entries, hasJsonExt e.1 = true ∧ parse e.2 = some p)
        ∧ (list_codex_profiles parse entries).Pairwise
            (fun a b => codexNameLe a b = true))
    ∧ (∀ parse entries,
        (list_opencode_profiles parse entries).Perm
            (entries.filterMap (fun e => if hasJsonExt e.1 then parse e.2 else none))
        ∧ (∀ p, p ∈ list_opencode_profiles parse entries ↔
            ∃ e ∈ entries, hasJsonExt e.1 = true ∧ parse e.2 = some p)
        ∧ (list_opencode_profiles parse entries).Pairwise
            (fun a b => opencodeNameLe a b = true)) := by
  constructor
  · intro parse entries
    have hperm : (list_codex_profiles parse entries).Perm
        (entries.filterMap (fun e => if hasJsonExt e.1 then parse e.2 else none)) := by
      rw [list_codex_profiles, parsedEntries_eq]
      exact perm_sortBy _ _
    refine ⟨hperm, ?_, ?_⟩
    · intro p
      rw [hperm.mem_iff, List.mem_filterMap]
      constructor
      · rintro ⟨e, he, hif⟩
        refine ⟨e, he, ?_⟩
        cases hx : hasJsonExt e.1 <;> rw [hx] at hif <;> simp at hif ⊢
        · exact hif
      · rintro ⟨e, he, hx, hp⟩
        exact ⟨e, he, by simp [hx, hp]⟩
    · rw [list_codex_profiles]
      exact pairwise_sortBy codexNameLe
        (fun a b => charListLe_total (lowerS a.name).data (lowerS b.name).data)
        (fun a b c h1 h2 => charListLe_trans _ _ _ h1 h2) _
  · intro parse entries
    have hperm : (list_opencode_profiles parse entries).Perm
        (entries.filterMap (fun e => if hasJsonExt e.1 then parse e.2 else none)) := by
      rw [list_opencode_profiles, parsedEntries_eq]
      exact perm_sortBy _ _
    refine ⟨hperm, ?_, ?_⟩
    · intro p
      rw [hperm.mem_iff, List.mem_filterMap]
      constructor
      · rintro ⟨e, he, hif⟩
        refine ⟨e, he, ?_⟩
        cases hx : hasJsonExt e.1 <;> rw [hx] at hif <;> simp at hif ⊢
        · exact hif
      · rintro ⟨e, he, hx, hp⟩
        exact ⟨e, he, by simp [hx, hp]⟩
    · rw [list_opencode_profiles]
      exact pairwise_sortBy opencodeNameLe
        (fun a b => charListLe_total a.name.data b.name.data)
        (fun a b c h1 h2 => charListLe_trans _ _ _ h1 h2) _

/-- C7 counterexample: with profiles named "a" and "B", the opencode list
comes back as B before a — byte order — violating the claimed case-insensitive
order (which would put a first, as the codex list does). -/
theorem opencode_list_case_sensitive_cex :
    (list_opencode_profiles exParseOc
        [("a.json", "CONTENT-A"), ("b.json", "CONTENT-B")]).map (fun p => p.name)
      = ["B", "a"]
    ∧ strLeB (lowerS "B") (lowerS "a") = false
    ∧ ¬ (list_opencode_profiles exParseOc
        [("a.json", "CONTENT-A"), ("b.json", "CONTENT-B")]).Pairwise
          (fun a b => strLeB (lowerS a.name) (lowerS b.name) = true) := by
  refine ⟨rfl, rfl, ?_⟩
  intro h
  rw [show list_opencode_profiles exParseOc
      [("a.json", "CONTENT-A"), ("b.json", "CONTENT-B")] = [exOcProfB, exOcProfA] from rfl] at h
  simp [List.pairwise_cons, exOcProfB, exOcProfA, strLeB, lowerS, charListLe] at h


end DroidGear
